import Mathlib

/-!
Verification of the DWD forecast ingestion pipeline: filename parsing and
single-scan discovery (src/efa/process_dwd_data/file_discovery.py), the
parallel collector and dedup/merge/wide-table builder
(src/efa/process_dwd_data/processor.py), and the schema-validated store
write contract (src/efa/tables/core.py, src/efa/tables/L0/dwd_weather.py).

Machine values that the pipeline only moves around (timestamps, scalar point
values, coordinates) are carried as `Nat`/`Int`: the code never computes with
them, it only copies and compares, so any type with decidable equality is a
faithful carrier.
-/

/-! ## List-of-characters machinery shared by the parser and discovery -/

/-- `p` is a prefix of `s` (character-wise). -/
def listStartsWith : List Char → List Char → Bool
  | [], _ => true
  | _ :: _, [] => false
  | p :: ps, c :: cs => p = c && listStartsWith ps cs

/-- `needle` occurs as a contiguous substring of the second list.
Models Python `needle in name`. -/
def containsSub (needle : List Char) : List Char → Bool
  | [] => listStartsWith needle []
  | c :: cs => listStartsWith needle (c :: cs) || containsSub needle cs

/-- `needle` is a suffix of `s`. -/
def listEndsWith (needle s : List Char) : Bool :=
  listStartsWith needle.reverse s.reverse

/-! ## FilenameParser: `parse_dwd_filename` (file_discovery.py, lines 10-42)

The source matches the filename with `re.match` against
`icon-d2_de_lat-lon_(?P<type>model-level|single-level)_(?P<date>\d{10})_(?P<hour>\d{3})_(?P<level_or_2d>.*?)_(?P<var>.*)\.grb2`.
`re.match` anchors at the start only (no `$`), `.` never matches a newline,
`.*?` is lazy (shortest level token first, backtracking), `.*` is greedy
(longest variable, backtracking to the last reachable `.grb2`).  The model
below reproduces exactly those semantics; `\d` is modelled as an ASCII digit. -/

/-- The five characters the pattern requires after the variable name. -/
def grb2Suffix : List Char := ['.', 'g', 'r', 'b', '2']

/-- Greedy `(?P<var>.*)\.grb2` with no end anchor: the variable is the longest
newline-free prefix that is followed by `.grb2`; anything after that occurrence
of `.grb2` is left unmatched (and ignored, as `re.match` only needs a prefix). -/
def varMatch : List Char → Option (List Char)
  | [] => none
  | c :: cs =>
    if c = '\n' then
      if listStartsWith grb2Suffix (c :: cs) then some [] else none
    else
      match varMatch cs with
      | some v => some (c :: v)
      | none => if listStartsWith grb2Suffix (c :: cs) then some [] else none

/-- Lazy `(?P<level_or_2d>.*?)_` followed by the variable match: the level is
the shortest newline-free token after which an underscore and a successful
variable match follow; on failure the lazy group grows (an underscore itself
can be absorbed when the shorter split cannot complete the match). -/
def lvlSplit : List Char → Option (List Char × List Char)
  | [] => none
  | c :: cs =>
    match (if c = '_' then varMatch cs else none) with
    | some v => some ([], v)
    | none =>
      if c = '\n' then none
      else (lvlSplit cs).map (fun p => (c :: p.1, p.2))

/-- Consume an exact literal prefix. -/
def stripLit : List Char → List Char → Option (List Char)
  | [], s => some s
  | _ :: _, [] => none
  | p :: ps, c :: cs => if c = p then stripLit ps cs else none

/-- Consume exactly `n` ASCII digits. -/
def takeDigits : Nat → List Char → Option (List Char × List Char)
  | 0, s => some ([], s)
  | _ + 1, [] => none
  | n + 1, c :: cs =>
    if c.isDigit then (takeDigits n cs).map (fun p => (c :: p.1, p.2)) else none

/-- Consume one expected character. -/
def expectChar (c : Char) : List Char → Option (List Char)
  | [] => none
  | x :: xs => if x = c then some xs else none

/-- Python `int(...)` on a digit string. -/
def natOfDigits (ds : List Char) : Nat :=
  ds.foldl (fun a c => 10 * a + (c.toNat - '0'.toNat)) 0

/-- The parsed descriptor the source builds from the regex groups. -/
structure ParsedName where
  kind : String
  date : List Char
  forecast_hour : Nat
  level : Option (List Char)
  varName : List Char
deriving DecidableEq

/-- `_(?P<date>\d{10})_(?P<hour>\d{3})_` then the lazy level / greedy variable
part of the pattern (the leading underscore of the date group is folded into
the kind literal by the caller). -/
def parseTail (s : List Char) : Option (List Char × Nat × List Char × List Char) :=
  match takeDigits 10 s with
  | none => none
  | some (date, s3) =>
    match expectChar '_' s3 with
    | none => none
    | some s4 =>
      match takeDigits 3 s4 with
      | none => none
      | some (hd, s5) =>
        match expectChar '_' s5 with
        | none => none
        | some s6 => (lvlSplit s6).map (fun p => (date, natOfDigits hd, p.1, p.2))

/-- The whole pattern.  The alternation `(model-level|single-level)` is folded
into two literal prefixes (the two alternatives first differ right after the
common prefix, so this is the same match).  For `model-level` the source keeps
the level token; for `single-level` it discards the `level_or_2d` group and
reports level `None`. -/
def parseChars (s : List Char) : Option ParsedName :=
  match stripLit "icon-d2_de_lat-lon_model-level_".toList s with
  | some s2 =>
    (parseTail s2).map fun q =>
      ⟨"model-level", q.1, q.2.1, some q.2.2.1, q.2.2.2⟩
  | none =>
    match stripLit "icon-d2_de_lat-lon_single-level_".toList s with
    | some s2 =>
      (parseTail s2).map fun q =>
        ⟨"single-level", q.1, q.2.1, none, q.2.2.2⟩
    | none => none

/-- `parse_dwd_filename` (file_discovery.py line 10): regex match as above,
`None` when the pattern does not match.  The Python function is total (it
never raises): so is this model. -/
def parse_dwd_filename (s : String) : Option ParsedName :=
  parseChars s.data

/-- Modelled from the spec (section 4.1): the filename grammar, as the spec
words it — the fixed literal tokens, a 10-digit run timestamp, a 3-digit
zero-padded forecast hour, a (nonempty, single-token) level-or-"2d" marker,
then the variable name as the remainder of the name before the `.grb2`
extension, with nothing after it.  Used to state what "a filename matching
the grammar" means, independently of the regex of the source. -/
def matchesGrammar (s : List Char) : Bool :=
  match stripLit "icon-d2_de_lat-lon_model-level_".toList s with
  | some s2 => matchesGrammarTail s2
  | none =>
    match stripLit "icon-d2_de_lat-lon_single-level_".toList s with
    | some s2 => matchesGrammarTail s2
    | none => false
where
  /-- timestamp, hour, marker and remainder-variable of the grammar. -/
  matchesGrammarTail (s : List Char) : Bool :=
    match takeDigits 10 s with
    | none => false
    | some (_, s3) =>
      match expectChar '_' s3 with
      | none => false
      | some s4 =>
        match takeDigits 3 s4 with
        | none => false
        | some (_, s5) =>
          match expectChar '_' s5 with
          | none => false
          | some s6 =>
            let marker := s6.takeWhile (fun c => c ≠ '_')
            match s6.drop marker.length with
            | '_' :: tail => !marker.isEmpty && listEndsWith grb2Suffix tail
            | _ => false

/-- A grammar-shaped name: literal prefix, kind token, run timestamp, forecast
hour, marker, variable, `.grb2`.  Shared by the statements about the parser. -/
def mkDwdName (kindTok date hour marker varName : List Char) : List Char :=
  "icon-d2_de_lat-lon_".toList ++ (kindTok ++ ('_' :: (date ++ ('_' :: (hour ++
    ('_' :: (marker ++ ('_' :: (varName ++ grb2Suffix)))))))))

/-- The regex occurs as a prefix of `s`: exactly the inputs `re.match` accepts
(`rest` is whatever trails the matched `.grb2`, which `re.match` never looks
at; the marker is any newline-free token, possibly containing underscores,
since the lazy group backtracks). -/
def RegexPrefixMatch (s : List Char) : Prop :=
  ∃ kindTok date hour marker varName rest,
    (kindTok = "model-level".toList ∨ kindTok = "single-level".toList) ∧
    date.length = 10 ∧ (∀ c ∈ date, c.isDigit = true) ∧
    hour.length = 3 ∧ (∀ c ∈ hour, c.isDigit = true) ∧
    ('\n' ∉ marker) ∧ (∀ c ∈ varName, c ≠ '\n') ∧
    s = "icon-d2_de_lat-lon_".toList ++ (kindTok ++ ('_' :: (date ++ ('_' :: (hour ++
      ('_' :: (marker ++ ('_' :: (varName ++ (grb2Suffix ++ rest))))))))))

/-! ## Discovery: `find_all_files_once` (file_discovery.py, lines 168-223)

One pass over the sorted run directories; in each directory the glob
`icon-d2_de_*.grb2` enumerates candidate files, ensemble (`icon-d2-eps`)
files and unparsable names are skipped, and a file whose parsed forecast
hour exceeds `max_forecast_hours` is dropped; survivors are appended to the
`(variable, level)` bucket in traversal order.  A run directory is modelled
as its list of file names (in glob order) and the index as the flat, ordered
list of `(key, file)` pairs the `defaultdict` appends produce. -/

/-- `'icon-d2-eps' in file_path.name`. -/
def isEpsName (s : List Char) : Bool :=
  containsSub "icon-d2-eps".toList s

/-- The glob pattern `icon-d2_de_*.grb2` for one directory entry. -/
def globDetFile (s : List Char) : Bool :=
  16 ≤ s.length && listStartsWith "icon-d2_de_".toList s &&
    listEndsWith ".grb2".toList s

/-- `(variable, level)` — the bucket key of the single-scan index. -/
abbrev VarKey := List Char × Option (List Char)

/-- The inner loop of `find_all_files_once` over one run directory. -/
def scanRunDir (cutoff : Nat) (files : List (List Char)) :
    List (VarKey × List Char) :=
  files.filterMap fun f =>
    if !globDetFile f then none
    else if isEpsName f then none
    else
      match parseChars f with
      | none => none
      | some p =>
        if p.forecast_hour > cutoff then none
        else some ((p.varName, p.level), f)

/-- `find_all_files_once`: all run directories (already sorted, `today`
excluded by the caller's listing), one scan, appends in traversal order. -/
def find_all_files_once (runDirs : List (List (List Char))) (cutoff : Nat) :
    List (VarKey × List Char) :=
  (runDirs.map (scanRunDir cutoff)).flatten

/-- The ordered file list of one `(variable, level)` bucket of the index
(`files_by_var[key]`, built by appends in traversal order). -/
def filesForKey (idx : List (VarKey × List Char)) (key : VarKey) :
    List (List Char) :=
  idx.filterMap fun e => if e.1 = key then some e.2 else none

/-! ## ParallelCollector + dedup: `process_variable_from_files`
(processor.py, lines 31-111)

The file list is cut into contiguous chunks (`chunk_size = max(1,
len(file_paths) // (max_workers * 4))`).  Each worker decodes its chunk
sequentially through the injected point extractor; a whole-file decode
failure is counted and skipped, a location the extractor omits simply
contributes nothing.  The coordinator consumes chunk results in COMPLETION
order (`as_completed`) — modelled by the `order` parameter, a permutation of
chunk indices chosen by the scheduler — and extends each location's sample
list.  Per location the samples are then deduplicated with
`unique(subset=["time"], keep="last")` and sorted ascending by time.  The
success-rate log line divides by `len(file_paths)`, which raises
`ZeroDivisionError` for an empty file list. -/

/-- `(valid time, scalar value)` as extracted from one file. -/
abbrev Sample := Nat × Int

/-- A per-(location, variable) sample list. -/
abbrev Series := List Sample

/-- The injected point extractor (grib_reader.extract_multiple_points):
per file either a whole-file failure (`none`, an exception caught by the
worker) or the per-location results, keyed by location index, in the
dictionary's insertion order. -/
abbrev Extractor := String → Option (List (Nat × Sample))

/-- Python dict key order: first occurrence wins, later repeats ignored. -/
def firstSeen (l : List Nat) : List Nat :=
  l.foldl (fun acc x => if x ∈ acc then acc else acc ++ [x]) []

/-- The value of the LAST sample in arrival order carrying timestamp `t`
(what `unique(keep="last")` retains for `t`). -/
def lastValueAt (xs : Series) (t : Nat) : Option Int :=
  (xs.reverse.find? (fun x => x.1 == t)).map (fun x => x.2)

/-- Comparison by first component, the sort key of every `sort("time")` /
`sorted(...)` in the source. -/
def fstLE {α β : Type} [LE α] (a b : α × β) : Prop := a.1 ≤ b.1

instance {α β : Type} [LinearOrder α] : IsTotal (α × β) fstLE :=
  ⟨fun a b => le_total a.1 b.1⟩

instance {α β : Type} [LinearOrder α] : IsTrans (α × β) fstLE :=
  ⟨fun _ _ _ h h2 => le_trans h h2⟩

instance {α β : Type} [LinearOrder α] : DecidableRel (α := α × β) fstLE :=
  fun a b => inferInstanceAs (Decidable (a.1 ≤ b.1))

/-- `df.unique(subset=["time"], keep="last").sort("time")`: one row per
distinct timestamp, the last-arrived value for it, ascending by time. -/
def dedupSortSeries (xs : Series) : Series :=
  ((firstSeen (xs.map Prod.fst)).filterMap
    (fun t => (lastValueAt xs t).map (fun v => (t, v)))).insertionSort fstLE

/-- `file_paths[i:i+chunk_size] for i in range(0, len(file_paths), chunk_size)`,
structurally recursive on a fuel that starts at the list's length (each step
consumes at least the head element, so the fuel never runs out; the
fuel-exhaustion branch is unreachable). -/
def chunkListAux {α : Type} (size : Nat) : Nat → List α → List (List α)
  | _, [] => []
  | 0, l => [l]
  | fuel + 1, x :: xs =>
    (x :: xs.take (size - 1)) :: chunkListAux size fuel (xs.drop (size - 1))

/-- The chunking of the file list (`size` is at least 1 at every call site,
like `chunk_size = max(1, ...)`). -/
def chunkList {α : Type} (size : Nat) (l : List α) : List (List α) :=
  chunkListAux size l.length l

/-- The flat stream of `(location, sample)` pairs the coordinator's merge
loop appends: chunks in completion `order`, files inside a chunk in traversal
order, a failed file (`none`) contributing nothing. -/
def mergedStream (extract : Extractor) (chunks : List (List String))
    (order : List Nat) : List (Nat × Sample) :=
  (((order.filterMap (fun i => chunks.get? i)).flatten).map
    (fun f => (extract f).getD [])).flatten

/-- One location's merged sample list (`location_data[loc]`). -/
def streamFor (stream : List (Nat × Sample)) (loc : Nat) : Series :=
  stream.filterMap (fun e => if e.1 == loc then some e.2 else none)

/-- `process_variable_from_files` (processor.py line 31): chunk, extract,
merge in completion order, then per present location dedup + sort.  A
location never seen in the stream gets NO entry in `result_dfs` (the
`if not data` branch of lines 91-95 is unreachable: `location_data` keys are
only created by appending a nonempty chunk result).  The success-rate line
109 computes `100*total_processed/len(file_paths)`, a `ZeroDivisionError`
when the file list is empty (modelled as the error case; Lean's own `/` on
`Nat` would silently yield 0). -/
def process_variable_from_files (extract : Extractor) (maxWorkers : Nat)
    (files : List String) (order : List Nat) :
    Except String (List (Nat × Series)) :=
  let size := max 1 (files.length / (maxWorkers * 4))
  let chunks := chunkList size files
  let stream := mergedStream extract chunks order
  let locs := firstSeen (stream.map Prod.fst)
  let result := locs.map (fun loc => (loc, dedupSortSeries (streamFor stream loc)))
  if files.length = 0 then Except.error "ZeroDivisionError"
  else Except.ok result

/-! ## TimeseriesBuilder: `build_dataset` (processor.py, lines 113-165)

Per location: sort the variable names, start from the first variable's
`(time, value)` frame, outer-coalesce-join every other variable on `time`,
sort by time, then attach constant latitude/longitude columns.  Across
locations: `pl.concat` with its default `vertical` strategy.  A wide table
is its column-name list plus rows of `(time, values-aligned-with-columns)`. -/

structure WideTable where
  cols : List String
  rows : List (Nat × List (Option Int))
deriving DecidableEq

/-- The single match a join finds in a deduplicated `(time, value)` frame
(`none` when the frame has no row at `t`). -/
def lookupSeries (s : Series) (t : Nat) : Option Int :=
  (s.find? (fun x => x.1 == t)).map (fun x => x.2)

/-- `var_data[keys[0]].rename({"value": keys[0]})`: the starting frame. -/
def baseTable (nm : String) (s : Series) : WideTable :=
  ⟨[nm], s.map (fun x => (x.1, [some x.2]))⟩

/-- `base_df.join(other_df, on="time", how="outer_coalesce")` for frames with
unique time keys: every left row gains the right value at its time (null when
absent); right rows at times the left table lacks are appended with nulls in
all left columns. -/
def joinOuter (tbl : WideTable) (nm : String) (s : Series) : WideTable :=
  ⟨tbl.cols ++ [nm],
   tbl.rows.map (fun r => (r.1, r.2 ++ [lookupSeries s r.1])) ++
     (s.filter (fun x => !(tbl.rows.any (fun r => r.1 == x.1)))).map
       (fun x => (x.1, List.replicate tbl.cols.length none ++ [some x.2]))⟩

/-- `df.sort("time")`. -/
def sortRowsByTime (tbl : WideTable) : WideTable :=
  ⟨tbl.cols, tbl.rows.insertionSort fstLE⟩

/-- `with_columns(lit(lat).alias('latitude'), lit(lon).alias('longitude'))`. -/
def addLatLon (tbl : WideTable) (lat lon : Int) : WideTable :=
  ⟨tbl.cols ++ ["latitude", "longitude"],
   tbl.rows.map (fun r => (r.1, r.2 ++ [some lat, some lon]))⟩

/-- The per-location body of `build_dataset`'s loop, applied to the
name-sorted `(column name, deduped series)` association list; `none` is the
`if not var_data: continue` skip. -/
def buildLocationTable (varData : List (String × Series)) (lat lon : Int) :
    Option WideTable :=
  match varData with
  | [] => none
  | (nm, s) :: rest =>
    some (addLatLon
      (sortRowsByTime (rest.foldl (fun acc p => joinOuter acc p.1 p.2) (baseTable nm s)))
      lat lon)

/-- `keys = sorted(var_data.keys())` applied to the association list. -/
def sortByKey (varData : List (String × Series)) : List (String × Series) :=
  varData.insertionSort fstLE

/-- `pl.concat` with the default `how="vertical"`: all frames must share the
head frame's columns; the rows are stacked in order, rows are never merged.
A column mismatch raises (`none`); so does concatenating an empty list (the
caller guards that case). -/
def pl_concat (tbls : List WideTable) : Option WideTable :=
  match tbls with
  | [] => none
  | t :: ts =>
    if ts.all (fun u => u.cols == t.cols) then
      some ⟨t.cols, ((t :: ts).map WideTable.rows).flatten⟩
    else none

/-- `build_dataset` (processor.py line 113): per location (dict iteration
order) build the wide table — skipping locations whose `var_data` is empty —
looking the coordinates up by positional index (`locations[loc_idx]`, an
IndexError when out of range, modelled by `Option`), then concatenate; with
no per-location tables at all the result is the empty frame `pl.DataFrame()`. -/
def build_dataset (allLocData : List (Nat × List (String × Series)))
    (locations : List (Int × Int)) : Option WideTable :=
  match (allLocData.filter (fun e => !e.2.isEmpty)).mapM
      (fun e => (locations.get? e.1).bind
        (fun ll => buildLocationTable (sortByKey e.2) ll.1 ll.2)) with
  | none => none
  | some tbls => if tbls.isEmpty then some ⟨[], []⟩ else pl_concat tbls

/-! ## SchemaValidator + Store: `Table` (tables/core.py) and
`DwdWeatherSchema` (tables/L0/dwd_weather.py)

A pandera `DataFrameModel` is modelled as a list of column specs (name,
nullability, optional lower/upper bound).  `schema.validate(df, lazy)`
checks the schema's columns in declaration order; per column it first
requires presence, then checks each row.  With `lazy=True` it collects every
failure and raises `SchemaErrors` carrying all of them; with `lazy=False` it
raises `SchemaError` at the FIRST failing check.  `strict = "filter"` lets
extra columns pass.  Types/coercion are not modelled (every cell is already
a scalar-or-null). -/

/-- A pandas DataFrame: named columns and rows of cells aligned with them. -/
structure PDataFrame where
  cols : List String
  rows : List (List (Option Int))
deriving DecidableEq

/-- One pandera field: name, nullability, optional `ge`/`le` bounds. -/
structure ColSpec where
  name : String
  nullable : Bool
  lb : Option Int
  ub : Option Int
deriving DecidableEq

abbrev Schema := List ColSpec

/-- A failure case: the column and the offending row index (`none` for a
missing column). -/
abbrev Violation := String × Option Nat

/-- The cells of a named column, `none` when the column is absent. -/
def colValues (df : PDataFrame) (c : String) : Option (List (Option Int)) :=
  (df.cols.indexOf? c).map (fun i => df.rows.map (fun r => r.getD i none))

/-- One cell against one field: nullability and range. -/
def checkValue (spec : ColSpec) (v : Option Int) : Bool :=
  match v with
  | none => spec.nullable
  | some x =>
    (match spec.lb with | none => true | some b => decide (b ≤ x)) &&
    (match spec.ub with | none => true | some b => decide (x ≤ b))

/-- All failure cases of one field, in row order. -/
def colViolations (df : PDataFrame) (spec : ColSpec) : List Violation :=
  match colValues df spec.name with
  | none => [(spec.name, none)]
  | some vs =>
    vs.enum.filterMap (fun p =>
      if checkValue spec p.2 then none else some (spec.name, some p.1))

/-- Every failure case of the frame, schema-column-major then row order. -/
def collectViolations (schema : Schema) (df : PDataFrame) : List Violation :=
  (schema.map (colViolations df)).flatten

/-- `schema.validate(df, lazy=...)`: `lazy=True` reports ALL failure cases
(`SchemaErrors`), `lazy=False` stops at the first (`SchemaError`). -/
def validateModel (schema : Schema) (df : PDataFrame) (lazy : Bool) :
    Except (List Violation) Unit :=
  match collectViolations schema df, lazy with
  | [], _ => Except.ok ()
  | vs, true => Except.error vs
  | v :: _, false => Except.error [v]

/-- `Table._validate_shallow` (core.py line 46): structure only —
`self.schema.validate(df.head(0), lazy=True)`, i.e. the frame truncated to
zero rows, so only column presence can fail. -/
def Table.validate_shallow (schema : Schema) (df : PDataFrame) :
    Except (List Violation) Unit :=
  validateModel schema ⟨df.cols, []⟩ true

/-- `Table._validate_deep` (core.py line 68):
`self.schema.validate(df, lazy=False)` — note the source passes
`lazy=False`, so pandera raises at the first failing check. -/
def Table.validate_deep (schema : Schema) (df : PDataFrame) :
    Except (List Violation) Unit :=
  validateModel schema df false

/-- `DwdWeatherSchema` (tables/L0/dwd_weather.py), fields in declaration
order; every field is non-nullable, radiation is `ge=0`, temperature is
`ge=200, le=350`, latitude `[-90, 90]`, longitude `[-180, 180]`. -/
def schemaDwd : Schema :=
  [⟨"time", false, none, none⟩,
   ⟨"v_10m", false, none, none⟩,
   ⟨"u_10m", false, none, none⟩,
   ⟨"v_level61", false, none, none⟩,
   ⟨"v_level62", false, none, none⟩,
   ⟨"v_level63", false, none, none⟩,
   ⟨"v_level64", false, none, none⟩,
   ⟨"u_level61", false, none, none⟩,
   ⟨"u_level62", false, none, none⟩,
   ⟨"u_level63", false, none, none⟩,
   ⟨"u_level64", false, none, none⟩,
   ⟨"aswdir_s", false, some 0, none⟩,
   ⟨"aswdifd_s", false, some 0, none⟩,
   ⟨"t_2m", false, some 200, some 350⟩,
   ⟨"latitude", false, some (-90), some 90⟩,
   ⟨"longitude", false, some (-180), some 180⟩]

/-- The DuckDB database: table name to stored rows. -/
abbrev StoreState := List (String × List (List (Option Int)))

/-- `SELECT * FROM name` / catalog lookup. -/
def storeGet (store : StoreState) (name : String) :
    Option (List (List (Option Int))) :=
  (store.find? (fun e => e.1 == name)).map (fun e => e.2)

/-- Create-or-overwrite a table's rows. -/
def storeSet (store : StoreState) (name : String)
    (rows : List (List (Option Int))) : StoreState :=
  if store.any (fun e => e.1 == name) then
    store.map (fun e => if e.1 == name then (name, rows) else e)
  else store ++ [(name, rows)]

/-- `Table.write` (core.py line 91).  In source order: reject a mode other
than `append`/`replace` (`ValueError`); reject an empty frame (`ValueError`;
pandas `df.empty` is true when either axis has length zero); if `validate`,
run shallow validation and — only then, if additionally `deep_validate` —
deep validation; finally connect and mutate: `replace` drops and recreates
the table from the frame, `append` creates it empty if absent and inserts.
The returned pair is (database state after the call, outcome): every
rejection happens before the DuckDB connection is opened, so the state
passes through unchanged on the error paths. -/
def Table.write (store : StoreState) (tableName : String) (schema : Schema)
    (df : PDataFrame) (mode : String) (validate : Bool) (deep_validate : Bool) :
    StoreState × Except String Unit :=
  if mode ≠ "append" ∧ mode ≠ "replace" then
    (store, Except.error "ValueError: mode must be append or replace")
  else if df.rows.isEmpty || df.cols.isEmpty then
    (store, Except.error "ValueError: cannot write empty DataFrame")
  else
    match (if validate then Table.validate_shallow schema df else Except.ok ()) with
    | Except.error _ => (store, Except.error "Shallow validation failed")
    | Except.ok () =>
      match (if validate && deep_validate then Table.validate_deep schema df
             else Except.ok ()) with
      | Except.error _ => (store, Except.error "Deep validation failed")
      | Except.ok () =>
        if mode = "replace" then
          (storeSet store tableName df.rows, Except.ok ())
        else
          (storeSet store tableName
            ((storeGet store tableName).getD [] ++ df.rows), Except.ok ())

/-! ## Properties stated over the embedding -/

/-- What the dedup law produces from a list of samples in arrival order:
strictly ascending (hence duplicate-free) timestamps, and per timestamp the
value of the LAST sample that arrived with it. -/
def DedupSpec (arrived s : Series) : Prop :=
  List.Pairwise (fun a b : Sample => a.1 < b.1) s ∧
  ∀ t v, (t, v) ∈ s ↔ lastValueAt arrived t = some v

/-- What the per-location wide-table assembly produces from an association
list of (column name, deduped series): the columns are the variables plus
latitude/longitude; row times are strictly ascending; a time has a row
exactly when some variable observed it; and every row holds, per variable,
exactly that variable's value at the row's time (null when unobserved),
then the constant coordinates. -/
def WideSpec (varData : List (String × Series)) (lat lon : Int)
    (tbl : WideTable) : Prop :=
  tbl.cols = varData.map Prod.fst ++ ["latitude", "longitude"] ∧
  List.Pairwise (fun a b : Nat × List (Option Int) => a.1 < b.1) tbl.rows ∧
  (∀ t, (∃ r ∈ tbl.rows, r.1 = t) ↔ ∃ p ∈ varData, t ∈ p.2.map Prod.fst) ∧
  ∀ r ∈ tbl.rows, r.2 = varData.map (fun p => lookupSeries p.2 r.1) ++ [some lat, some lon]

/-- Invariant of the join fold: after processing `processed`, the accumulated
table has exactly their columns, duplicate-free row times forming the union
of the processed series' times, and per row the per-variable lookups. -/
def JInv (processed : List (String × Series)) (tbl : WideTable) : Prop :=
  tbl.cols = processed.map Prod.fst ∧
  (tbl.rows.map Prod.fst).Nodup ∧
  (∀ t, (∃ r ∈ tbl.rows, r.1 = t) ↔ ∃ p ∈ processed, t ∈ p.2.map Prod.fst) ∧
  ∀ r ∈ tbl.rows, r.2 = processed.map (fun p => lookupSeries p.2 r.1)

/-- A two-row frame over the DWD schema whose `t_2m` column violates its
`[200, 350]` range in BOTH rows (values 100 and 400); all other cells valid. -/
def dfDeepPair : PDataFrame :=
  ⟨["time", "v_10m", "u_10m", "v_level61", "v_level62", "v_level63",
    "v_level64", "u_level61", "u_level62", "u_level63", "u_level64",
    "aswdir_s", "aswdifd_s", "t_2m", "latitude", "longitude"],
   [[some 0, some 0, some 0, some 0, some 0, some 0, some 0, some 0, some 0,
     some 0, some 0, some 0, some 0, some 100, some 0, some 0],
    [some 0, some 0, some 0, some 0, some 0, some 0, some 0, some 0, some 0,
     some 0, some 0, some 0, some 0, some 400, some 0, some 0]]⟩

/-! ## Theorems -/

/-! ### Dedup helper lemmas -/

theorem firstSeen_aux_mem (l acc : List Nat) (x : Nat) :
    (x ∈ l.foldl (fun a y => if y ∈ a then a else a ++ [y]) acc) ↔
      x ∈ acc ∨ x ∈ l := by
  induction l generalizing acc with
  | nil => simp
  | cons y ys ih =>
    simp only [List.foldl_cons]
    by_cases hy : y ∈ acc
    · rw [if_pos hy, ih]
      constructor
      · rintro (h | h)
        · exact Or.inl h
        · exact Or.inr (List.mem_cons_of_mem _ h)
      · rintro (h | h)
        · exact Or.inl h
        · rcases List.mem_cons.mp h with rfl | h
          · exact Or.inl hy
          · exact Or.inr h
    · rw [if_neg hy, ih]
      simp only [List.mem_append, List.mem_singleton, List.mem_cons]
      tauto

theorem mem_firstSeen (l : List Nat) (x : Nat) : x ∈ firstSeen l ↔ x ∈ l := by
  unfold firstSeen
  rw [firstSeen_aux_mem]
  simp

theorem firstSeen_aux_nodup (l : List Nat) :
    ∀ acc : List Nat, acc.Nodup →
      (l.foldl (fun a y => if y ∈ a then a else a ++ [y]) acc).Nodup := by
  induction l with
  | nil => intro acc h; simpa using h
  | cons y ys ih =>
    intro acc h
    simp only [List.foldl_cons]
    by_cases hy : y ∈ acc
    · rw [if_pos hy]; exact ih _ h
    · rw [if_neg hy]
      refine ih _ (List.Nodup.append h (List.nodup_singleton y) ?_)
      intro a ha hay
      rw [List.mem_singleton] at hay
      subst hay
      exact hy ha

theorem nodup_firstSeen (l : List Nat) : (firstSeen l).Nodup :=
  firstSeen_aux_nodup l [] List.nodup_nil

theorem lastValueAt_isSome (xs : Series) (t : Nat) :
    (lastValueAt xs t).isSome ↔ t ∈ xs.map Prod.fst := by
  unfold lastValueAt
  cases hf : xs.reverse.find? (fun x => x.1 == t) with
  | none =>
    simp only [Option.map_none', Option.isSome_none, Bool.false_eq_true, false_iff]
    intro hmem
    rw [List.mem_map] at hmem
    obtain ⟨x, hx, rfl⟩ := hmem
    rw [List.find?_eq_none] at hf
    have := hf x (List.mem_reverse.mpr hx)
    simp at this
  | some x =>
    simp only [Option.map_some', Option.isSome_some, true_iff]
    have hpx := List.find?_some hf
    have hxm := List.mem_of_find?_eq_some hf
    rw [List.mem_reverse] at hxm
    rw [List.mem_map]
    exact ⟨x, hxm, by simpa using hpx⟩

theorem nodup_fst_filterMap (g : Nat → Option Sample)
    (hg : ∀ t p, g t = some p → p.1 = t) :
    ∀ l : List Nat, l.Nodup → ((l.filterMap g).map Prod.fst).Nodup := by
  intro l
  induction l with
  | nil => intro _; simp
  | cons t ts ih =>
    intro h
    rcases List.nodup_cons.mp h with ⟨hts, hnd⟩
    cases hgt : g t with
    | none => rw [List.filterMap_cons_none hgt]; exact ih hnd
    | some p =>
      rw [List.filterMap_cons_some hgt]
      simp only [List.map_cons]
      refine List.nodup_cons.mpr ⟨?_, ih hnd⟩
      intro hmem
      rw [List.mem_map] at hmem
      obtain ⟨q, hq, hq1⟩ := hmem
      rw [List.mem_filterMap] at hq
      obtain ⟨t2, ht2, hgt2⟩ := hq
      have h1 : q.1 = t2 := hg t2 q hgt2
      have h2 : p.1 = t := hg t p hgt
      rw [h2] at hq1
      rw [h1] at hq1
      rw [hq1] at ht2
      exact hts ht2

/-- The dedup used per (location, variable): one row per distinct timestamp,
last-arrived value wins, ascending times. -/
theorem dedupSortSeries_spec (xs : Series) : DedupSpec xs (dedupSortSeries xs) := by
  unfold dedupSortSeries
  set g : Nat → Option Sample :=
    fun t => (lastValueAt xs t).map (fun v => (t, v)) with hgdef
  have hg : ∀ t p, g t = some p → p.1 = t := by
    intro t p hp
    simp only [hgdef] at hp
    cases hl : lastValueAt xs t with
    | none => rw [hl] at hp; simp at hp
    | some v =>
      rw [hl] at hp
      simp only [Option.map_some'] at hp
      injection hp with h
      rw [← h]
  set pre := (firstSeen (xs.map Prod.fst)).filterMap g with hpre
  have hperm : List.Perm (pre.insertionSort fstLE) pre :=
    List.perm_insertionSort _ pre
  have hnd : (pre.map Prod.fst).Nodup :=
    nodup_fst_filterMap g hg _ (nodup_firstSeen _)
  have hndSorted : ((pre.insertionSort fstLE).map Prod.fst).Nodup :=
    ((hperm.map Prod.fst).nodup_iff).mpr hnd
  constructor
  · have hsorted : (pre.insertionSort fstLE).Sorted fstLE :=
      List.sorted_insertionSort _ pre
    have hne : (pre.insertionSort fstLE).Pairwise
        (fun a b : Sample => a.1 ≠ b.1) :=
      List.pairwise_map.mp hndSorted
    exact (hsorted.and hne).imp (fun h => lt_of_le_of_ne h.1 h.2)
  · intro t v
    rw [hperm.mem_iff]
    rw [hpre, List.mem_filterMap]
    constructor
    · rintro ⟨t2, _, hgt2⟩
      simp only [hgdef] at hgt2
      cases hl : lastValueAt xs t2 with
      | none => rw [hl] at hgt2; simp at hgt2
      | some v2 =>
        rw [hl] at hgt2
        simp only [Option.map_some'] at hgt2
        injection hgt2 with h
        injection h with h1 h2
        subst h1
        subst h2
        exact hl
    · intro hlast
      refine ⟨t, ?_, ?_⟩
      · rw [mem_firstSeen]
        rw [← lastValueAt_isSome]
        rw [hlast]
        rfl
      · simp only [hgdef, hlast, Option.map_some']

/-! ### C1, C10: the collector -/

theorem process_variable_from_files_eq (extract : Extractor) (mw : Nat)
    (files : List String) (order : List Nat) :
    process_variable_from_files extract mw files order =
      if files.length = 0 then Except.error "ZeroDivisionError"
      else Except.ok
        ((firstSeen ((mergedStream extract
            (chunkList (max 1 (files.length / (mw * 4))) files) order).map Prod.fst)).map
          (fun loc => (loc, dedupSortSeries (streamFor (mergedStream extract
            (chunkList (max 1 (files.length / (mw * 4))) files) order) loc)))) := rfl

/-- C1 (amended): every series the collector returns is deduplicated by
last-write-wins relative to the MERGED arrival order (chunks in completion
order, files within a chunk in traversal order) — not, in general, the
traversal order of section 4.2 — with unique, strictly ascending timestamps. -/
theorem C1_dedup_amended (extract : Extractor) (mw : Nat) (files : List String)
    (order : List Nat) (r : List (Nat × Series)) (loc : Nat) (s : Series)
    (hr : process_variable_from_files extract mw files order = Except.ok r)
    (hmem : (loc, s) ∈ r) :
    DedupSpec (streamFor (mergedStream extract
      (chunkList (max 1 (files.length / (mw * 4))) files) order) loc) s := by
  rw [process_variable_from_files_eq] at hr
  by_cases h0 : files.length = 0
  · rw [if_pos h0] at hr; cases hr
  · rw [if_neg h0] at hr
    injection hr with hr
    subst hr
    rw [List.mem_map] at hmem
    obtain ⟨a, _, heq⟩ := hmem
    injection heq with h1 h2
    subst h1
    subst h2
    exact dedupSortSeries_spec _

/-- Witness for C1_dedup_amended: one file, one location, one sample. -/
theorem C1_witness :
    DedupSpec (streamFor (mergedStream (fun _ => some [(0, (7, 1))])
      (chunkList (max 1 (["f"].length / (8 * 4))) ["f"]) [0]) 0) [(7, 1)] :=
  C1_dedup_amended (fun _ => some [(0, (7, 1))]) 8 ["f"] [0]
    [(0, [(7, 1)])] 0 [(7, 1)] rfl (by simp)

/-- C1 counterexample: two runs, same valid time `7`, run A carries value 1
and run B (later in traversal order) value 2; when chunk B completes first
(`order = [1, 0]`) the collector returns run A's value 1, although the dedup
law of the claim — "last" defined by traversal order, later run wins —
demands value 2 (which `unique(keep="last")` indeed yields when the samples
arrive in traversal order). -/
theorem C1_counterexample :
    process_variable_from_files
      (fun f => if f = "fA" then some [(0, (7, 1))] else some [(0, (7, 2))])
      8 ["fA", "fB"] [1, 0] = Except.ok [(0, [(7, 1)])] ∧
    dedupSortSeries [(7, 1), (7, 2)] = [(7, 2)] :=
  ⟨rfl, rfl⟩

/-- C10: with an empty file list the success-rate computation divides by
`len(file_paths) = 0` and the call raises `ZeroDivisionError`; with any
nonempty file list the division is safe and a result dictionary is returned,
even when every file fails. -/
theorem C10_zero_division (extract : Extractor) (mw : Nat)
    (files : List String) (order : List Nat) :
    (files = [] →
      process_variable_from_files extract mw files order =
        Except.error "ZeroDivisionError") ∧
    (files ≠ [] →
      ∃ r, process_variable_from_files extract mw files order = Except.ok r) := by
  constructor
  · intro h
    subst h
    rfl
  · intro h
    have h0 : ¬ files.length = 0 := by simpa using h
    rw [process_variable_from_files_eq]
    rw [if_neg h0]
    exact ⟨_, rfl⟩

/-! ### C5, C4, C3: the store write contract -/

/-- C5: the write operation rejects any mode other than `append`/`replace`
and rejects an empty input frame, in both cases before any store mutation:
the returned store state is the input state and the outcome is an error. -/
theorem C5_write_rejects (store : StoreState) (tname : String) (schema : Schema)
    (df : PDataFrame) (mode : String) (v dv : Bool)
    (h : (mode ≠ "append" ∧ mode ≠ "replace") ∨ df.rows = [] ∨ df.cols = []) :
    (Table.write store tname schema df mode v dv).1 = store ∧
    ∃ e, (Table.write store tname schema df mode v dv).2 = Except.error e := by
  unfold Table.write
  by_cases hm : mode ≠ "append" ∧ mode ≠ "replace"
  · rw [if_pos hm]
    exact ⟨rfl, _, rfl⟩
  · rw [if_neg hm]
    have he : (df.rows.isEmpty || df.cols.isEmpty) = true := by
      rcases h with h | h | h
      · exact absurd h hm
      · simp [h]
      · simp [h]
    rw [if_pos he]
    exact ⟨rfl, _, rfl⟩

/-- Witness for C5_write_rejects: an empty frame against a populated store. -/
theorem C5_witness :
    (Table.write [("L0_DwdWeather", [[some 1]])] "L0_DwdWeather" schemaDwd
      ⟨["time"], []⟩ "append" true false).1 = [("L0_DwdWeather", [[some 1]])] ∧
    ∃ e, (Table.write [("L0_DwdWeather", [[some 1]])] "L0_DwdWeather" schemaDwd
      ⟨["time"], []⟩ "append" true false).2 = Except.error e :=
  C5_write_rejects [("L0_DwdWeather", [[some 1]])] "L0_DwdWeather" schemaDwd
    ⟨["time"], []⟩ "append" true false (Or.inr (Or.inl rfl))

/-- C4 counterexample: a call to write with `validate=False` on a frame that
shallow validation rejects (it lacks every schema column but `time`) runs no
validation at all and mutates the store — so shallow validation is NOT run on
every call to write. -/
theorem C4_counterexample :
    (∃ vs, Table.validate_shallow schemaDwd ⟨["time"], [[some 0]]⟩ =
      Except.error vs) ∧
    Table.write [] "L0_DwdWeather" schemaDwd ⟨["time"], [[some 0]]⟩
      "append" false false =
      ([("L0_DwdWeather", [[some 0]])], Except.ok ()) :=
  ⟨⟨_, rfl⟩, rfl⟩

/-- C4 (amended): whenever `validate=True` (the default), shallow validation
runs on the input before any store mutation: if the input fails shallow
validation, the store state is returned unchanged and the write errors. -/
theorem C4_write_amended (store : StoreState) (tname : String) (schema : Schema)
    (df : PDataFrame) (mode : String) (dv : Bool) (vs : List Violation)
    (h : Table.validate_shallow schema df = Except.error vs) :
    (Table.write store tname schema df mode true dv).1 = store ∧
    ∃ e, (Table.write store tname schema df mode true dv).2 = Except.error e := by
  unfold Table.write
  by_cases hm : mode ≠ "append" ∧ mode ≠ "replace"
  · rw [if_pos hm]
    exact ⟨rfl, _, rfl⟩
  · rw [if_neg hm]
    by_cases he : (df.rows.isEmpty || df.cols.isEmpty) = true
    · rw [if_pos he]
      exact ⟨rfl, _, rfl⟩
    · rw [if_neg he]
      rw [show (if (true : Bool) then Table.validate_shallow schema df
            else Except.ok ()) = Table.validate_shallow schema df from rfl]
      rw [h]
      exact ⟨rfl, _, rfl⟩

/-- Witness for C4_write_amended: the frame of C4's counterexample written
with validation enabled is rejected with the store untouched. -/
theorem C4_witness :
    (Table.write [] "L0_DwdWeather" schemaDwd ⟨["time"], [[some 0]]⟩
      "append" true false).1 = [] ∧
    ∃ e, (Table.write [] "L0_DwdWeather" schemaDwd ⟨["time"], [[some 0]]⟩
      "append" true false).2 = Except.error e :=
  C4_write_amended [] "L0_DwdWeather" schemaDwd ⟨["time"], [[some 0]]⟩
    "append" false
    [("v_10m", none), ("u_10m", none), ("v_level61", none), ("v_level62", none),
     ("v_level63", none), ("v_level64", none), ("u_level61", none),
     ("u_level62", none), ("u_level63", none), ("u_level64", none),
     ("aswdir_s", none), ("aswdifd_s", none), ("t_2m", none),
     ("latitude", none), ("longitude", none)] rfl

/-- C3: deep validation is requested on a frame with TWO range violations
(`t_2m` out of `[200, 350]` in rows 0 and 1), but because `_validate_deep`
calls `schema.validate(df, lazy=False)`, pandera raises at the FIRST failing
check and only one of the two violations is reported — the collection of all
violations (`lazy=True`) would have found both. -/
theorem C3_deep_fail_fast :
    Table.validate_deep schemaDwd dfDeepPair =
      Except.error [("t_2m", some 0)] ∧
    collectViolations schemaDwd dfDeepPair =
      [("t_2m", some 0), ("t_2m", some 1)] :=
  ⟨rfl, rfl⟩

/-! ### C2: empty-input handling of the builder -/

/-- C2: a (location, variable) with zero extracted samples yields NO entry in
the collector's result (location 0 never enters `location_data`, the
`if not data` guard of processor.py lines 91-95 being unreachable), so the
per-location wide table silently lacks that variable's column instead of
carrying it all-null; the second half of the claim holds: with no per-location
rows at all, `build_dataset` returns the empty frame. -/
theorem C2_zero_sample_column_dropped :
    process_variable_from_files (fun _ => some []) 8 ["f1"] [0] =
      Except.ok [] ∧
    (buildLocationTable [("x", [(0, 5)])] 1 2).map WideTable.cols =
      some ["x", "latitude", "longitude"] ∧
    build_dataset [(0, [])] [(1, 2)] = some ⟨[], []⟩ :=
  ⟨rfl, rfl, rfl⟩

/-! ### C9: cross-location concatenation -/

/-- C9 counterexample: two per-location wide tables with different column
sets; `pl.concat`'s default vertical strategy raises instead of producing a
table over the union of the columns. -/
theorem C9_counterexample :
    pl_concat [⟨["a"], [(0, [some 1])]⟩, ⟨["b"], [(1, [some 2])]⟩] = none :=
  rfl

/-- C9 (amended): when every per-location wide table carries the same column
list, concatenation stacks the rows without ever merging them — the result's
rows are exactly the source rows in order (so each row keeps its source
location's latitude/longitude), the row count is the sum of the per-location
row counts, and the schema is the shared column list. -/
theorem C9_concat_amended (t : WideTable) (ts : List WideTable)
    (h : ∀ u ∈ ts, u.cols = t.cols) :
    pl_concat (t :: ts) =
      some ⟨t.cols, ((t :: ts).map WideTable.rows).flatten⟩ ∧
    (((t :: ts).map WideTable.rows).flatten).length =
      ((t :: ts).map (fun u => u.rows.length)).sum := by
  constructor
  · have hstep : pl_concat (t :: ts) =
        if ts.all (fun u => u.cols == t.cols) then
          some ⟨t.cols, ((t :: ts).map WideTable.rows).flatten⟩
        else none := rfl
    rw [hstep, if_pos]
    rw [List.all_eq_true]
    intro u hu
    exact beq_iff_eq.mpr (h u hu)
  · rw [List.length_flatten, List.map_map]
    rfl

/-- Witness for C9_concat_amended: two one-row tables over the same column. -/
theorem C9_witness :
    pl_concat [⟨["a"], [(0, [some 1])]⟩, ⟨["a"], [(1, [some 2])]⟩] =
      some ⟨["a"], (([⟨["a"], [(0, [some 1])]⟩,
        ⟨["a"], [(1, [some 2])]⟩] : List WideTable).map WideTable.rows).flatten⟩ ∧
    ((([⟨["a"], [(0, [some 1])]⟩,
        ⟨["a"], [(1, [some 2])]⟩] : List WideTable).map WideTable.rows).flatten).length =
      (([⟨["a"], [(0, [some 1])]⟩,
        ⟨["a"], [(1, [some 2])]⟩] : List WideTable).map (fun u => u.rows.length)).sum :=
  C9_concat_amended ⟨["a"], [(0, [some 1])]⟩ [⟨["a"], [(1, [some 2])]⟩]
    (by decide)

/-! ### C7: discovery cutoff invariant -/

/-- C7: no file in any bucket of the single-scan discovery index parses to a
forecast hour above the configured cutoff (every indexed file parses, and its
parsed hour is at most the cutoff). -/
theorem C7_cutoff_invariant (runDirs : List (List (List Char))) (cutoff : Nat)
    (key : VarKey) (f : List Char)
    (h : f ∈ filesForKey (find_all_files_once runDirs cutoff) key) :
    ∃ p, parseChars f = some p ∧ p.forecast_hour ≤ cutoff := by
  unfold filesForKey at h
  rw [List.mem_filterMap] at h
  obtain ⟨e, he, hef⟩ := h
  by_cases hk : e.1 = key
  · rw [if_pos hk] at hef
    injection hef with hef
    unfold find_all_files_once at he
    rw [List.mem_flatten] at he
    obtain ⟨dirScan, hd, he2⟩ := he
    rw [List.mem_map] at hd
    obtain ⟨dir, _, rfl⟩ := hd
    unfold scanRunDir at he2
    rw [List.mem_filterMap] at he2
    obtain ⟨name, _, hsome⟩ := he2
    by_cases hg : !globDetFile name
    · rw [if_pos hg] at hsome
      cases hsome
    rw [if_neg hg] at hsome
    by_cases heps : isEpsName name
    · rw [if_pos heps] at hsome
      cases hsome
    rw [if_neg heps] at hsome
    cases hp : parseChars name with
    | none => rw [hp] at hsome; cases hsome
    | some p =>
      rw [hp] at hsome
      change (if p.forecast_hour > cutoff then none
        else some ((p.varName, p.level), name)) = some e at hsome
      by_cases hcut : p.forecast_hour > cutoff
      · rw [if_pos hcut] at hsome
        cases hsome
      · rw [if_neg hcut] at hsome
        injection hsome with hsome
        have hname : name = f := by
          rw [← hef, ← hsome]
        rw [← hname]
        exact ⟨p, hp, Nat.le_of_not_lt hcut⟩
  · rw [if_neg hk] at hef
    cases hef

/-- Witness for C7_cutoff_invariant: one run directory holding an hour-000
file (kept) and an hour-003 file (dropped by cutoff 2). -/
theorem C7_witness :
    ∃ p, parseChars
        "icon-d2_de_lat-lon_model-level_2021010100_000_61_u.grb2".toList =
        some p ∧ p.forecast_hour ≤ 2 :=
  C7_cutoff_invariant
    [["icon-d2_de_lat-lon_model-level_2021010100_000_61_u.grb2".toList,
      "icon-d2_de_lat-lon_model-level_2021010100_003_61_u.grb2".toList]] 2
    ("u".toList, some "61".toList)
    "icon-d2_de_lat-lon_model-level_2021010100_000_61_u.grb2".toList
    (by decide)

/-! ### C6: filename parser — recovery on grammar-shaped names -/

theorem stripLit_append (p r : List Char) : stripLit p (p ++ r) = some r := by
  induction p with
  | nil => rfl
  | cons c cs ih => simp [stripLit, ih]

theorem takeDigits_append (d r : List Char) (hd : ∀ c ∈ d, c.isDigit = true) :
    takeDigits d.length (d ++ r) = some (d, r) := by
  induction d with
  | nil => rfl
  | cons c cs ih =>
    have hc := hd c (List.mem_cons_self c cs)
    have ih2 := ih (fun x hx => hd x (List.mem_cons_of_mem _ hx))
    simp [takeDigits, hc, ih2]

theorem varMatch_append (v : List Char) (hv : ∀ c ∈ v, c ≠ '\n') :
    varMatch (v ++ grb2Suffix) = some v := by
  induction v with
  | nil => rfl
  | cons c cs ih =>
    have hc : ¬ c = '\n' := hv c (List.mem_cons_self c cs)
    have ih2 := ih (fun x hx => hv x (List.mem_cons_of_mem _ hx))
    show varMatch (c :: (cs ++ grb2Suffix)) = some (c :: cs)
    simp only [varMatch]
    rw [if_neg hc, ih2]

theorem lvlSplit_append (m v : List Char) (hm1 : '_' ∉ m) (hm2 : '\n' ∉ m)
    (hv : ∀ c ∈ v, c ≠ '\n') :
    lvlSplit (m ++ '_' :: (v ++ grb2Suffix)) = some (m, v) := by
  induction m with
  | nil =>
    show lvlSplit ('_' :: (v ++ grb2Suffix)) = some ([], v)
    simp [lvlSplit, varMatch_append v hv]
  | cons c cs ih =>
    have hc1 : ¬ c = '_' := fun h =>
      hm1 (h ▸ List.mem_cons_self c cs)
    have hc2 : ¬ c = '\n' := fun h =>
      hm2 (h ▸ List.mem_cons_self c cs)
    have ih2 := ih (fun h => hm1 (List.mem_cons_of_mem _ h))
      (fun h => hm2 (List.mem_cons_of_mem _ h))
    show lvlSplit (c :: (cs ++ '_' :: (v ++ grb2Suffix))) = some (c :: cs, v)
    simp only [lvlSplit, if_neg hc1, if_neg hc2, ih2, Option.map_some']

theorem parseTail_append (date hdg m v : List Char)
    (h1 : ∀ c ∈ date, c.isDigit = true) (h2 : date.length = 10)
    (h3 : ∀ c ∈ hdg, c.isDigit = true) (h4 : hdg.length = 3)
    (hm1 : '_' ∉ m) (hm2 : '\n' ∉ m) (hv : ∀ c ∈ v, c ≠ '\n') :
    parseTail (date ++ '_' :: (hdg ++ '_' :: (m ++ '_' :: (v ++ grb2Suffix)))) =
      some (date, natOfDigits hdg, m, v) := by
  have e1 := takeDigits_append date
    ('_' :: (hdg ++ '_' :: (m ++ '_' :: (v ++ grb2Suffix)))) h1
  rw [h2] at e1
  have e3 := takeDigits_append hdg ('_' :: (m ++ '_' :: (v ++ grb2Suffix))) h3
  rw [h4] at e3
  have e5 := lvlSplit_append m v hm1 hm2 hv
  simp [parseTail, e1, e3, e5, expectChar]

theorem parseChars_model (date hdg m v : List Char)
    (h1 : ∀ c ∈ date, c.isDigit = true) (h2 : date.length = 10)
    (h3 : ∀ c ∈ hdg, c.isDigit = true) (h4 : hdg.length = 3)
    (hm1 : '_' ∉ m) (hm2 : '\n' ∉ m) (hv : ∀ c ∈ v, c ≠ '\n') :
    parseChars (mkDwdName "model-level".toList date hdg m v) =
      some ⟨"model-level", date, natOfDigits hdg, some m, v⟩ := by
  have e0 : stripLit "icon-d2_de_lat-lon_model-level_".toList
      (mkDwdName "model-level".toList date hdg m v) =
      some (date ++ '_' :: (hdg ++ '_' :: (m ++ '_' :: (v ++ grb2Suffix)))) :=
    stripLit_append "icon-d2_de_lat-lon_model-level_".toList
      (date ++ '_' :: (hdg ++ '_' :: (m ++ '_' :: (v ++ grb2Suffix))))
  unfold parseChars
  rw [e0]
  simp [parseTail_append date hdg m v h1 h2 h3 h4 hm1 hm2 hv]

theorem parseChars_single (date hdg m v : List Char)
    (h1 : ∀ c ∈ date, c.isDigit = true) (h2 : date.length = 10)
    (h3 : ∀ c ∈ hdg, c.isDigit = true) (h4 : hdg.length = 3)
    (hm1 : '_' ∉ m) (hm2 : '\n' ∉ m) (hv : ∀ c ∈ v, c ≠ '\n') :
    parseChars (mkDwdName "single-level".toList date hdg m v) =
      some ⟨"single-level", date, natOfDigits hdg, none, v⟩ := by
  have e0 : stripLit "icon-d2_de_lat-lon_model-level_".toList
      (mkDwdName "single-level".toList date hdg m v) = none := rfl
  have e1 : stripLit "icon-d2_de_lat-lon_single-level_".toList
      (mkDwdName "single-level".toList date hdg m v) =
      some (date ++ '_' :: (hdg ++ '_' :: (m ++ '_' :: (v ++ grb2Suffix)))) :=
    stripLit_append "icon-d2_de_lat-lon_single-level_".toList
      (date ++ '_' :: (hdg ++ '_' :: (m ++ '_' :: (v ++ grb2Suffix))))
  unfold parseChars
  rw [e0, e1]
  simp [parseTail_append date hdg m v h1 h2 h3 h4 hm1 hm2 hv]

/-! ### C6: filename parser — a successful parse exhibits a pattern prefix -/

theorem listStartsWith_exists (p : List Char) :
    ∀ s, listStartsWith p s = true → ∃ r, s = p ++ r := by
  induction p with
  | nil => intro s _; exact ⟨s, rfl⟩
  | cons c cs ih =>
    intro s h
    cases s with
    | nil => simp [listStartsWith] at h
    | cons d ds =>
      rw [listStartsWith, Bool.and_eq_true] at h
      obtain ⟨h1, h2⟩ := h
      have hcd : c = d := by simpa using h1
      obtain ⟨r, hr⟩ := ih ds h2
      exact ⟨r, by rw [hr, hcd]; rfl⟩

theorem stripLit_sound (p : List Char) :
    ∀ s r, stripLit p s = some r → s = p ++ r := by
  induction p with
  | nil =>
    intro s r h
    injection h
  | cons c cs ih =>
    intro s r h
    cases s with
    | nil => cases h
    | cons d ds =>
      simp only [stripLit] at h
      by_cases hd : d = c
      · rw [if_pos hd] at h
        rw [hd]
        exact congrArg (c :: ·) (ih ds r h)
      · rw [if_neg hd] at h
        cases h

theorem takeDigits_sound :
    ∀ (n : Nat) (s d r : List Char), takeDigits n s = some (d, r) →
      s = d ++ r ∧ d.length = n ∧ ∀ c ∈ d, c.isDigit = true := by
  intro n
  induction n with
  | zero =>
    intro s d r h
    injection h with h
    injection h with h1 h2
    rw [← h1, ← h2]
    exact ⟨rfl, rfl, by simp⟩
  | succ k ih =>
    intro s d r h
    cases s with
    | nil => cases h
    | cons c cs =>
      simp only [takeDigits] at h
      by_cases hc : c.isDigit = true
      · rw [if_pos hc] at h
        cases htk : takeDigits k cs with
        | none => rw [htk] at h; cases h
        | some p =>
          rw [htk] at h
          simp only [Option.map_some'] at h
          injection h with h
          injection h with h1 h2
          obtain ⟨e1, e2, e3⟩ := ih cs p.1 p.2 htk
          subst h2
          rw [← h1]
          refine ⟨by rw [e1]; rfl, by simp [e2], ?_⟩
          intro x hx
          rcases List.mem_cons.mp hx with rfl | hx
          · exact hc
          · exact e3 x hx
      · rw [if_neg hc] at h
        cases h

theorem varMatch_sound :
    ∀ s v, varMatch s = some v →
      (∀ c ∈ v, c ≠ '\n') ∧ ∃ rest, s = v ++ (grb2Suffix ++ rest) := by
  intro s
  induction s with
  | nil => intro v h; cases h
  | cons c cs ih =>
    intro v h
    simp only [varMatch] at h
    by_cases hc : c = '\n'
    · rw [if_pos hc] at h
      by_cases hs : listStartsWith grb2Suffix (c :: cs) = true
      · rw [if_pos hs] at h
        injection h with h
        obtain ⟨r, hr⟩ := listStartsWith_exists _ _ hs
        exact ⟨by rw [← h]; simp, r, by rw [← h, hr]; rfl⟩
      · rw [if_neg hs] at h
        cases h
    · rw [if_neg hc] at h
      cases hv : varMatch cs with
      | some v2 =>
        rw [hv] at h
        injection h with h
        obtain ⟨hnl, r, hr⟩ := ih v2 hv
        refine ⟨?_, r, ?_⟩
        · intro x hx
          rw [← h] at hx
          rcases List.mem_cons.mp hx with rfl | hx
          · exact hc
          · exact hnl x hx
        · rw [← h, hr]
          rfl
      | none =>
        rw [hv] at h
        by_cases hs : listStartsWith grb2Suffix (c :: cs) = true
        · rw [if_pos hs] at h
          injection h with h
          obtain ⟨r, hr⟩ := listStartsWith_exists _ _ hs
          exact ⟨by rw [← h]; simp, r, by rw [← h, hr]; rfl⟩
        · rw [if_neg hs] at h
          cases h

theorem lvlSplit_sound :
    ∀ s m v, lvlSplit s = some (m, v) →
      ('\n' ∉ m) ∧ (∀ c ∈ v, c ≠ '\n') ∧
        ∃ rest, s = m ++ '_' :: (v ++ (grb2Suffix ++ rest)) := by
  intro s
  induction s with
  | nil => intro m v h; cases h
  | cons c cs ih =>
    intro m v h
    simp only [lvlSplit] at h
    cases hfirst : (if c = '_' then varMatch cs else none) with
    | some v2 =>
      rw [hfirst] at h
      injection h with h
      injection h with h1 h2
      have hc : c = '_' := by
        by_contra hcn
        rw [if_neg hcn] at hfirst
        cases hfirst
      rw [if_pos hc] at hfirst
      obtain ⟨hnl, r, hr⟩ := varMatch_sound cs v2 hfirst
      subst h2
      rw [← h1]
      exact ⟨by simp, hnl, r, by rw [hc, hr]; rfl⟩
    | none =>
      rw [hfirst] at h
      by_cases hc : c = '\n'
      · rw [if_pos hc] at h
        cases h
      · rw [if_neg hc] at h
        cases hls : lvlSplit cs with
        | none => rw [hls] at h; cases h
        | some p =>
          rw [hls] at h
          simp only [Option.map_some'] at h
          injection h with h
          injection h with h1 h2
          obtain ⟨hm, hv, r, hr⟩ := ih p.1 p.2 (by rw [hls])
          subst h2
          rw [← h1]
          refine ⟨?_, hv, r, by rw [hr]; rfl⟩
          intro hx
          rcases List.mem_cons.mp hx with he | hx
          · exact hc he.symm
          · exact hm hx

theorem expectChar_sound (c : Char) :
    ∀ s r, expectChar c s = some r → s = c :: r := by
  intro s r h
  cases s with
  | nil => cases h
  | cons x xs =>
    simp only [expectChar] at h
    by_cases hx : x = c
    · rw [if_pos hx] at h
      injection h with h
      rw [hx, h]
    · rw [if_neg hx] at h
      cases h

theorem parseTail_sound (s date : List Char) (fh : Nat) (m v : List Char)
    (hp : parseTail s = some (date, fh, m, v)) :
    ∃ hd rest,
      s = date ++ '_' :: (hd ++ '_' :: (m ++ '_' :: (v ++ (grb2Suffix ++ rest)))) ∧
      date.length = 10 ∧ (∀ c ∈ date, c.isDigit = true) ∧
      hd.length = 3 ∧ (∀ c ∈ hd, c.isDigit = true) ∧ natOfDigits hd = fh ∧
      ('\n' ∉ m) ∧ (∀ c ∈ v, c ≠ '\n') := by
  unfold parseTail at hp
  cases h10 : takeDigits 10 s with
  | none => simp only [h10] at hp; exact absurd hp (by simp)
  | some p1 =>
    obtain ⟨d1, s3⟩ := p1
    simp only [h10] at hp
    cases he1 : expectChar '_' s3 with
    | none => simp only [he1] at hp; exact absurd hp (by simp)
    | some s4 =>
      simp only [he1] at hp
      cases h3 : takeDigits 3 s4 with
      | none => simp only [h3] at hp; exact absurd hp (by simp)
      | some p2 =>
        obtain ⟨hd1, s5⟩ := p2
        simp only [h3] at hp
        cases he2 : expectChar '_' s5 with
        | none => simp only [he2] at hp; exact absurd hp (by simp)
        | some s6 =>
          simp only [he2] at hp
          cases hls : lvlSplit s6 with
          | none => simp only [hls] at hp; exact absurd hp (by simp)
          | some q =>
            simp only [hls, Option.map_some'] at hp
            injection hp with hp
            injection hp with hpa hp
            injection hp with hpb hp
            injection hp with hpc hpd
            obtain ⟨e1, e2, e3⟩ := takeDigits_sound 10 s d1 s3 h10
            have e4 := expectChar_sound '_' s3 s4 he1
            obtain ⟨e5, e6, e7⟩ := takeDigits_sound 3 s4 hd1 s5 h3
            have e8 := expectChar_sound '_' s5 s6 he2
            obtain ⟨em, ev, rest, e9⟩ := lvlSplit_sound s6 q.1 q.2 (by rw [hls])
            subst hpa
            subst hpb
            refine ⟨hd1, rest, ?_, e2, e3, e6, e7, rfl, ?_, ?_⟩
            · rw [e1, e4, e5, e8, e9, hpc, hpd]
            · rw [← hpc]; exact em
            · rw [← hpd]; exact ev

theorem parseChars_sound (s : List Char) (p : ParsedName)
    (h : parseChars s = some p) : RegexPrefixMatch s := by
  unfold parseChars at h
  cases hm : stripLit "icon-d2_de_lat-lon_model-level_".toList s with
  | some s2 =>
    simp only [hm] at h
    cases hq : parseTail s2 with
    | none => simp only [hq] at h; exact absurd h (by simp)
    | some q =>
      obtain ⟨qd, qf, qm, qv⟩ := q
      obtain ⟨hd, rest, hs2, d2, d1, d4, d3, _, dm, dv⟩ :=
        parseTail_sound s2 qd qf qm qv hq
      have hs := stripLit_sound _ s s2 hm
      refine ⟨"model-level".toList, qd, hd, qm, qv, rest,
        Or.inl rfl, d2, d1, d4, d3, dm, dv, ?_⟩
      rw [hs, hs2]
      rfl
  | none =>
    simp only [hm] at h
    cases hm2 : stripLit "icon-d2_de_lat-lon_single-level_".toList s with
    | some s2 =>
      simp only [hm2] at h
      cases hq : parseTail s2 with
      | none => simp only [hq] at h; exact absurd h (by simp)
      | some q =>
        obtain ⟨qd, qf, qm, qv⟩ := q
        obtain ⟨hd, rest, hs2, d2, d1, d4, d3, _, dm, dv⟩ :=
          parseTail_sound s2 qd qf qm qv hq
        have hs := stripLit_sound _ s s2 hm2
        refine ⟨"single-level".toList, qd, hd, qm, qv, rest,
          Or.inr rfl, d2, d1, d4, d3, dm, dv, ?_⟩
        rw [hs, hs2]
        rfl
    | none =>
      simp only [hm2] at h
      exact absurd h (by simp)

/-- C6 (amended): every grammar-shaped filename — the fixed literals, a
10-digit timestamp, a 3-digit hour, a single-token (underscore-free,
newline-free) marker, the variable name as the (newline-free) remainder
before `.grb2` — parses to exactly its components, however many underscores
the variable name contains; and the parser accepts an input ONLY when the
pattern occurs as a prefix of it.  The parser is a total function (it never
raises).  The original claim's "every non-matching input yields null" fails:
an input extending a grammar name with trailing characters after `.grb2`
does not match the grammar yet still parses (see the counterexample). -/
theorem C6_parse_amended :
    (∀ date hdg m v : List Char,
      (∀ c ∈ date, c.isDigit = true) → date.length = 10 →
      (∀ c ∈ hdg, c.isDigit = true) → hdg.length = 3 →
      '_' ∉ m → '\n' ∉ m → (∀ c ∈ v, c ≠ '\n') →
      parseChars (mkDwdName "model-level".toList date hdg m v) =
        some ⟨"model-level", date, natOfDigits hdg, some m, v⟩ ∧
      parseChars (mkDwdName "single-level".toList date hdg m v) =
        some ⟨"single-level", date, natOfDigits hdg, none, v⟩) ∧
    ∀ s p, parseChars s = some p → RegexPrefixMatch s := by
  constructor
  · intro date hdg m v h1 h2 h3 h4 hm1 hm2 hv
    exact ⟨parseChars_model date hdg m v h1 h2 h3 h4 hm1 hm2 hv,
           parseChars_single date hdg m v h1 h2 h3 h4 hm1 hm2 hv⟩
  · exact parseChars_sound

/-- C6 counterexample: the input extends a grammar name with `.bak` after
`.grb2`, so it does not match the grammar (the variable name is the remainder
up to the `.grb2` extension, with nothing after it) — yet the parser, whose
regex has no end anchor, returns a descriptor instead of null, silently
dropping the trailing `.bak`. -/
theorem C6_counterexample :
    matchesGrammar
      "icon-d2_de_lat-lon_model-level_2021010100_000_61_u.grb2.bak".toList
      = false ∧
    parse_dwd_filename
      "icon-d2_de_lat-lon_model-level_2021010100_000_61_u.grb2.bak" =
      some ⟨"model-level", "2021010100".toList, 0, some "61".toList,
        "u".toList⟩ :=
  ⟨rfl, rfl⟩

/-! ### C8: per-location wide-table assembly -/

theorem lookupSeries_of_mem (s : Series) (x : Sample)
    (hx : x ∈ s) (hnd : (s.map Prod.fst).Nodup) :
    lookupSeries s x.1 = some x.2 := by
  induction s with
  | nil => cases hx
  | cons y ys ih =>
    rw [List.map_cons, List.nodup_cons] at hnd
    obtain ⟨hy, hnd2⟩ := hnd
    rcases List.mem_cons.mp hx with rfl | hx2
    · have hfind : List.find? (fun z => z.1 == x.1) (x :: ys) = some x :=
        List.find?_cons_of_pos ys (by simp)
      unfold lookupSeries
      rw [hfind]
      rfl
    · have hne : ¬ (y.1 == x.1) = true := by
        intro hb
        rw [beq_iff_eq] at hb
        exact hy (hb ▸ List.mem_map.mpr ⟨x, hx2, rfl⟩)
      have hfind : List.find? (fun z => z.1 == x.1) (y :: ys) =
          List.find? (fun z => z.1 == x.1) ys :=
        List.find?_cons_of_neg ys hne
      unfold lookupSeries
      rw [hfind]
      exact ih hx2 hnd2

theorem lookupSeries_eq_none (s : Series) (t : Nat)
    (h : t ∉ s.map Prod.fst) :
    lookupSeries s t = none := by
  unfold lookupSeries
  rw [List.find?_eq_none.mpr]
  · rfl
  · intro x hx hb
    rw [beq_iff_eq] at hb
    exact h (hb ▸ List.mem_map.mpr ⟨x, hx, rfl⟩)

theorem JInv_base (p : String × Series)
    (hnd : (p.2.map Prod.fst).Nodup) :
    JInv [p] (baseTable p.1 p.2) := by
  refine ⟨rfl, ?_, ?_, ?_⟩
  · show ((p.2.map (fun x => (x.1, [some x.2]))).map Prod.fst).Nodup
    rw [List.map_map]
    exact hnd
  · intro t
    constructor
    · rintro ⟨r, hr, rfl⟩
      obtain ⟨x, hx, rfl⟩ := List.mem_map.mp hr
      exact ⟨p, List.mem_singleton.mpr rfl, List.mem_map.mpr ⟨x, hx, rfl⟩⟩
    · rintro ⟨q, hq, ht⟩
      rw [List.mem_singleton] at hq
      subst hq
      obtain ⟨x, hx, rfl⟩ := List.mem_map.mp ht
      exact ⟨(x.1, [some x.2]), List.mem_map.mpr ⟨x, hx, rfl⟩, rfl⟩
  · intro r hr
    obtain ⟨x, hx, rfl⟩ := List.mem_map.mp hr
    show [some x.2] = [lookupSeries p.2 x.1]
    rw [lookupSeries_of_mem p.2 x hx hnd]

theorem JInv_join (ps : List (String × Series)) (tbl : WideTable)
    (p : String × Series)
    (hinv : JInv ps tbl) (hnd : (p.2.map Prod.fst).Nodup) :
    JInv (ps ++ [p]) (joinOuter tbl p.1 p.2) := by
  obtain ⟨hcols, hndr, htimes, hvals⟩ := hinv
  have hnotime : ∀ x ∈ p.2.filter
      (fun x => !(tbl.rows.any (fun r => r.1 == x.1))),
      ∀ r ∈ tbl.rows, r.1 ≠ x.1 := by
    intro x hx r hr
    obtain ⟨_, hf⟩ := List.mem_filter.mp hx
    rw [Bool.not_eq_true'] at hf
    have hnr := List.any_eq_false.mp hf r hr
    simpa using hnr
  have hmapA : (tbl.rows.map
      (fun r => (r.1, r.2 ++ [lookupSeries p.2 r.1]))).map Prod.fst =
      tbl.rows.map Prod.fst := by
    rw [List.map_map]
    rfl
  have hmapB : ((p.2.filter (fun x => !(tbl.rows.any (fun r => r.1 == x.1)))).map
      (fun x => (x.1, List.replicate tbl.cols.length (none : Option Int) ++
        [some x.2]))).map Prod.fst =
      (p.2.filter (fun x => !(tbl.rows.any (fun r => r.1 == x.1)))).map
        Prod.fst := by
    rw [List.map_map]
    rfl
  refine ⟨?_, ?_, ?_, ?_⟩
  · show tbl.cols ++ [p.1] = (ps ++ [p]).map Prod.fst
    rw [List.map_append, hcols]
    rfl
  · show ((tbl.rows.map
      (fun r : Nat × List (Option Int) => (r.1, r.2 ++ [lookupSeries p.2 r.1])) ++
      (p.2.filter (fun x : Sample => !(tbl.rows.any (fun r => r.1 == x.1)))).map
        (fun x : Sample => (x.1, List.replicate tbl.cols.length none ++
          [some x.2]))).map Prod.fst).Nodup
    rw [List.map_append, hmapA, hmapB]
    refine List.Nodup.append hndr ?_ ?_
    · exact hnd.sublist ((List.filter_sublist p.2).map Prod.fst)
    · intro t htA htB
      obtain ⟨r, hr, hr1⟩ := List.mem_map.mp htA
      obtain ⟨x, hx, hx1⟩ := List.mem_map.mp htB
      exact hnotime x hx r hr (by rw [hr1, hx1])
  · intro t
    constructor
    · rintro ⟨r, hr, rfl⟩
      rcases List.mem_append.mp hr with hrA | hrB
      · obtain ⟨r0, hr0, rfl⟩ := List.mem_map.mp hrA
        obtain ⟨q, hq, hqt⟩ := (htimes r0.1).mp ⟨r0, hr0, rfl⟩
        exact ⟨q, List.mem_append_left _ hq, hqt⟩
      · obtain ⟨x, hx, rfl⟩ := List.mem_map.mp hrB
        obtain ⟨hxs, _⟩ := List.mem_filter.mp hx
        exact ⟨p, List.mem_append_right _ (List.mem_singleton.mpr rfl),
          List.mem_map.mpr ⟨x, hxs, rfl⟩⟩
    · rintro ⟨q, hq, hqt⟩
      rcases List.mem_append.mp hq with hq | hq
      · obtain ⟨r, hr, hrt⟩ := (htimes t).mpr ⟨q, hq, hqt⟩
        refine ⟨(r.1, r.2 ++ [lookupSeries p.2 r.1]),
          List.mem_append_left _ (List.mem_map.mpr ⟨r, hr, rfl⟩), hrt⟩
      · rw [List.mem_singleton] at hq
        rw [hq] at hqt
        obtain ⟨x, hxs, rfl⟩ := List.mem_map.mp hqt
        by_cases hold : ∃ r ∈ tbl.rows, r.1 = x.1
        · obtain ⟨r, hr, hrt⟩ := hold
          exact ⟨(r.1, r.2 ++ [lookupSeries p.2 r.1]),
            List.mem_append_left _ (List.mem_map.mpr ⟨r, hr, rfl⟩), hrt⟩
        · have hφ : (!(tbl.rows.any (fun r => r.1 == x.1))) = true := by
            rw [Bool.not_eq_true']
            refine List.any_eq_false.mpr ?_
            intro r hr hb
            rw [beq_iff_eq] at hb
            exact hold ⟨r, hr, hb⟩
          refine ⟨(x.1, List.replicate tbl.cols.length none ++ [some x.2]),
            List.mem_append_right _
              (List.mem_map.mpr ⟨x, List.mem_filter.mpr ⟨hxs, hφ⟩, rfl⟩), rfl⟩
  · intro r hr
    rcases List.mem_append.mp hr with hrA | hrB
    · obtain ⟨r0, hr0, rfl⟩ := List.mem_map.mp hrA
      show r0.2 ++ [lookupSeries p.2 r0.1] =
        (ps ++ [p]).map (fun q => lookupSeries q.2 r0.1)
      rw [List.map_append, hvals r0 hr0]
      rfl
    · obtain ⟨x, hx, rfl⟩ := List.mem_map.mp hrB
      show List.replicate tbl.cols.length none ++ [some x.2] =
        (ps ++ [p]).map (fun q => lookupSeries q.2 x.1)
      rw [List.map_append]
      have hxnot : ∀ q ∈ ps, lookupSeries q.2 x.1 = none := by
        intro q hq
        refine lookupSeries_eq_none q.2 x.1 ?_
        intro hxq
        obtain ⟨r, hr, hrt⟩ := (htimes x.1).mpr ⟨q, hq, hxq⟩
        exact hnotime x hx r hr hrt
      have hlen : tbl.cols.length = ps.length := by
        rw [hcols, List.length_map]
      rw [hlen]
      have hrepl : ps.map (fun q => lookupSeries q.2 x.1) =
          List.replicate ps.length none := by
        rw [List.map_congr_left hxnot]
        exact List.map_const' ps none
      rw [hrepl]
      obtain ⟨hxs, _⟩ := List.mem_filter.mp hx
      have hl : lookupSeries p.2 x.1 = some x.2 :=
        lookupSeries_of_mem p.2 x hxs hnd
      simp [hl]

theorem JInv_fold (rest : List (String × Series)) :
    ∀ (ps : List (String × Series)) (tbl : WideTable),
      JInv ps tbl → (∀ p ∈ rest, (p.2.map Prod.fst).Nodup) →
      JInv (ps ++ rest)
        (rest.foldl (fun acc p => joinOuter acc p.1 p.2) tbl) := by
  induction rest with
  | nil =>
    intro ps tbl h _
    simpa using h
  | cons a rest ih =>
    intro ps tbl h hnd
    simp only [List.foldl_cons]
    have h1 := JInv_join ps tbl a h (hnd a (List.mem_cons_self a rest))
    have h2 := ih (ps ++ [a]) (joinOuter tbl a.1 a.2) h1
      (fun p hp => hnd p (List.mem_cons_of_mem _ hp))
    rw [List.append_assoc] at h2
    exact h2

/-- C8: for every nonempty association list of (variable column, deduped
series) and every coordinate pair, the per-location assembly produces a wide
table satisfying `WideSpec`: columns are the variables plus
latitude/longitude, row times are the strictly ascending union of the
variables' observed times, each cell is that variable's value at the row's
time (null when it did not observe it), and every row ends with the constant
coordinates. -/
theorem C8_wide_join (varData : List (String × Series)) (lat lon : Int)
    (hne : varData ≠ [])
    (hnd : ∀ p ∈ varData, (p.2.map Prod.fst).Nodup) :
    ∃ tbl, buildLocationTable varData lat lon = some tbl ∧
      WideSpec varData lat lon tbl := by
  cases varData with
  | nil => exact absurd rfl hne
  | cons p0 rest =>
    have hbase := JInv_base p0 (hnd p0 (List.mem_cons_self p0 rest))
    have hfold := JInv_fold rest [p0] (baseTable p0.1 p0.2) hbase
      (fun p hp => hnd p (List.mem_cons_of_mem _ hp))
    obtain ⟨hcols, hndr, htimes, hvals⟩ := hfold
    set F := rest.foldl (fun acc p => joinOuter acc p.1 p.2)
      (baseTable p0.1 p0.2) with hF
    have hperm : List.Perm (F.rows.insertionSort fstLE) F.rows :=
      List.perm_insertionSort _ _
    have hsorted : (F.rows.insertionSort fstLE).Sorted fstLE :=
      List.sorted_insertionSort _ _
    have hndS : ((F.rows.insertionSort fstLE).map Prod.fst).Nodup :=
      ((hperm.map Prod.fst).nodup_iff).mpr hndr
    have hlt : (F.rows.insertionSort fstLE).Pairwise
        (fun a b : Nat × List (Option Int) => a.1 < b.1) := by
      have hne2 : (F.rows.insertionSort fstLE).Pairwise
          (fun a b : Nat × List (Option Int) => a.1 ≠ b.1) :=
        List.pairwise_map.mp hndS
      exact (hsorted.and hne2).imp (fun h => lt_of_le_of_ne h.1 h.2)
    refine ⟨addLatLon (sortRowsByTime F) lat lon, rfl, ?_, ?_, ?_, ?_⟩
    · show (F.cols ++ ["latitude", "longitude"]) = _
      rw [hcols]
      rfl
    · show ((F.rows.insertionSort fstLE).map
        (fun r : Nat × List (Option Int) =>
          (r.1, r.2 ++ [some lat, some lon]))).Pairwise
        (fun a b : Nat × List (Option Int) => a.1 < b.1)
      rw [List.pairwise_map]
      exact hlt
    · intro t
      constructor
      · rintro ⟨r, hr, rfl⟩
        obtain ⟨r0, hr0, rfl⟩ := List.mem_map.mp hr
        exact (htimes r0.1).mp ⟨r0, hperm.mem_iff.mp hr0, rfl⟩
      · intro hq
        obtain ⟨r, hr, hrt⟩ := (htimes t).mpr hq
        exact ⟨(r.1, r.2 ++ [some lat, some lon]),
          List.mem_map.mpr ⟨r, hperm.mem_iff.mpr hr, rfl⟩, hrt⟩
    · intro r hr
      obtain ⟨r0, hr0, rfl⟩ := List.mem_map.mp hr
      show r0.2 ++ [some lat, some lon] = _
      rw [hvals r0 (hperm.mem_iff.mp hr0)]
      rfl

/-- Witness for C8_wide_join: the spec's own example — variable x observed at
times 1 and 2, variable y at times 2 and 3. -/
theorem C8_witness :
    ∃ tbl, buildLocationTable
        [("x", [(1, 10), (2, 20)]), ("y", [(2, 21), (3, 31)])] 5 6 =
        some tbl ∧
      WideSpec [("x", [(1, 10), (2, 20)]), ("y", [(2, 21), (3, 31)])] 5 6 tbl :=
  C8_wide_join [("x", [(1, 10), (2, 20)]), ("y", [(2, 21), (3, 31)])] 5 6
    (by decide) (by decide)
